import Mathlib

/-!
# Verification of the LSUN dataloader (`src/dataloader.py`)

Shallow embedding of the repository's single source file. Opaque byte
strings (lmdb keys and values, decoded images) are modelled as `Nat`;
the lmdb environment at a root path is a record of the entry count
reported by `txn.stat()["entries"]`, the key enumeration produced by
`txn.cursor().iternext(keys=True, values=False)`, and the partial map
`txn.get`. The pickle cache files on disk are an association list from
file name to stored key list. Python `list[i]` indexing (which accepts
negative indices) is modelled by `pyIndex`; a raised exception
(IndexError / TypeError on a missing key) is `none` in an
`Option`-valued result.
-/

namespace DataLoader

/-- The lmdb environment visible at one root path: `stat()["entries"]`,
the cursor's key enumeration, and `txn.get`. -/
structure Env where
  entries : Nat
  cursorKeys : List Nat
  get : Nat → Option Nat

/-- The filesystem of pickle cache artifacts: file name ↦ stored key list. -/
structure FS where
  files : List (String × List Nat)

def FS.lookup (fs : FS) (name : String) : Option (List Nat) :=
  (fs.files.find? (fun p => p.1 = name)).map Prod.snd

def FS.write (fs : FS) (name : String) (keys : List Nat) : FS :=
  ⟨(name, keys) :: fs.files⟩

/-- `c in string.ascii_letters`. -/
def isAsciiLetter (c : Char) : Bool :=
  (97 ≤ c.toNat && c.toNat ≤ 122) || (65 ≤ c.toNat && c.toNat ≤ 90)

/-- `"_cache_" + "".join(c for c in root if c in string.ascii_letters)`. -/
def cacheFile (root : String) : String :=
  "_cache_" ++ String.mk (root.toList.filter isAsciiLetter)

/-- Python `xs[i]` on a list: negative indices count from the end;
out-of-range is an IndexError (`none`). -/
def pyIndex {α : Type} (xs : List α) (i : Int) : Option α :=
  if 0 ≤ i then xs.get? i.toNat
  else if 0 ≤ i + xs.length then xs.get? (i + xs.length).toNat
  else none

/-- State of one `LSUNClass` instance after `__init__`: the root it was
opened at, `self.length` and `self.keys`. -/
structure LSUNClass where
  root : String
  length : Nat
  keys : List Nat
deriving Repr, DecidableEq

/-- `LSUNClass.__init__`: capture `txn.stat()["entries"]`, then load the
pickle cache if the cache file exists, otherwise enumerate the keys with
the cursor and write the cache file. Returns the instance, the updated
filesystem, and whether a store scan (cursor enumeration) happened. -/
def lsunClassInit (env : String → Env) (fs : FS) (root : String) :
    LSUNClass × FS × Bool :=
  let e := env root
  let length := e.entries
  let cf := cacheFile root
  match fs.lookup cf with
  | some ks => ({ root := root, length := length, keys := ks }, fs, false)
  | none =>
      let ks := e.cursorKeys
      ({ root := root, length := length, keys := ks }, fs.write cf ks, true)

/-- `LSUNClass.__len__`. -/
def lsunClassLen (cls : LSUNClass) : Nat := cls.length

/-- `LSUNClass.__getitem__`: `self.keys[index]` (Python indexing), then
`txn.get(key)` (a missing key makes `buf.write(None)` raise), decode,
optional transform; `target` starts as `None` and the optional
target transform is applied to it. -/
def lsunClassGetItem (env : String → Env) (decode : Nat → Nat)
    (transform : Option (Nat → Nat))
    (targetTransform : Option (Option Nat → Option Nat))
    (cls : LSUNClass) (index : Int) : Option (Nat × Option Nat) :=
  match pyIndex cls.keys index with
  | none => none
  | some key =>
    match (env cls.root).get key with
    | none => none
    | some imgbuf =>
      let img := decode imgbuf
      let img := match transform with
        | some t => t img
        | none => img
      let target : Option Nat := none
      let target := match targetTransform with
        | some t => t target
        | none => target
      some (img, target)

/-- The fixed category vocabulary of `_verify_classes`. -/
def categories : List String :=
  ["sheep", "bedroom", "bridge", "church_outdoor", "classroom",
   "conference_room", "dining_room", "kitchen", "living_room",
   "restaurant", "tower"]

/-- The split vocabulary `dset_opts`. -/
def dset_opts : List String := ["train", "val", "test"]

/-- Validation failures raised by `_verify_classes` (ValueError messages,
kept structurally: the offending value and the list of valid values). -/
inductive VerifyError where
  | unknownCategory (value : String) (valid : List String)
  | unknownSplit (value : String) (valid : List String)
deriving Repr, DecidableEq

/-- Python `s.split("_")` on the character list of `s`. -/
def splitChars : List Char → List Char → List (List Char)
  | [], acc => [acc.reverse]
  | c :: cs, acc =>
      if c = '_' then acc.reverse :: splitChars cs []
      else splitChars cs (c :: acc)

/-- `c.split("_")` as a list of strings. -/
def pySplitUnderscore (s : String) : List String :=
  (splitChars s.toList []).map (fun l => String.mk l)

/-- Python `"_".join(parts)`. -/
def joinUnderscore : List String → String
  | [] => ""
  | [s] => s
  | s :: rest => s ++ "_" ++ joinUnderscore rest

/-- `category` = `"_".join(c_short[:-1])` for element `c`. -/
def pyCategory (c : String) : String :=
  joinUnderscore (pySplitUnderscore c).dropLast

/-- `dset_opt` = `c_short[-1]` for element `c`. -/
def pyDsetOpt (c : String) : String :=
  (pySplitUnderscore c).getLastD ""

/-- The body of the per-element validation loop of `_verify_classes`:
the category must be in the vocabulary and the postfix in `dset_opts`,
each checked by `verify_str_arg` with a custom message. -/
def verifyElem (c : String) : Except VerifyError Unit :=
  if pyCategory c ∈ categories then
    if pyDsetOpt c ∈ dset_opts then Except.ok ()
    else Except.error (VerifyError.unknownSplit (pyDsetOpt c) dset_opts)
  else Except.error (VerifyError.unknownCategory (pyCategory c) categories)

/-- The validation loop over the listified `classes`. -/
def verifyList : List String → Except VerifyError Unit
  | [] => Except.ok ()
  | c :: cs =>
    match verifyElem c with
    | Except.ok _ => verifyList cs
    | Except.error e => Except.error e

/-- `LSUNCustomDataLoader._verify_classes`. A `str` argument in
`dset_opts` is expanded (`"test"` to `["test"]`, otherwise every
category suffixed with the split); any other string raises inside the
`try`, is caught, and — a Python `str` being an `Iterable` of its
characters — is listified into its single-character strings and
validated element-wise. A list argument raises at the first
`verify_str_arg` (not a `str`), is caught, and is validated
element-wise; on success the listified argument is returned as is. -/
def verifyClasses : Sum String (List String) → Except VerifyError (List String)
  | Sum.inl s =>
      if s ∈ dset_opts then
        if s = "test" then Except.ok [s]
        else Except.ok (categories.map (fun c => c ++ "_" ++ s))
      else
        let chars := s.toList.map (fun ch => String.mk [ch])
        (verifyList chars).map (fun _ => chars)
  | Sum.inr l => (verifyList l).map (fun _ => l)

/-- State of one `LSUNCustomDataLoader` after `__init__`. -/
structure LSUNDataset where
  classes : List String
  dbs : List LSUNClass
  indices : List Nat
  length : Nat

/-- The `for c in self.classes: self.dbs.append(LSUNClass(root=root, ...))`
loop: every handle is opened at the same `root`, threading the cache
filesystem. -/
def openDbs (env : String → Env) (root : String) :
    List String → FS → List LSUNClass × FS
  | [], fs => ([], fs)
  | _ :: cs, fs =>
      let r := lsunClassInit env fs root
      let rest := openDbs env root cs r.2.1
      (r.1 :: rest.1, rest.2)

/-- The boundary-table loop: `count = 0; for db in dbs: count += len(db);
indices.append(count)`. Returns `(self.indices, count)`. -/
def buildIndex (lens : List Nat) : List Nat × Nat :=
  lens.foldl (fun acc l => (acc.1 ++ [acc.2 + l], acc.2 + l)) ([], 0)

/-- Cumulative counts starting from accumulator `a`: the closed form of
`buildIndex`'s first component. -/
def cumCounts : Nat → List Nat → List Nat
  | _, [] => []
  | a, l :: ls => (a + l) :: cumCounts (a + l) ls

/-- `LSUNCustomDataLoader.__init__`. -/
def lsunInit (env : String → Env) (fs : FS) (root : String)
    (classes : Sum String (List String)) :
    Except VerifyError (LSUNDataset × FS) :=
  match verifyClasses classes with
  | Except.error e => Except.error e
  | Except.ok cs =>
      let r := openDbs env root cs fs
      let b := buildIndex (r.1.map (fun db => db.length))
      Except.ok
        ({ classes := cs, dbs := r.1, indices := b.1, length := b.2 }, r.2)

/-- `LSUNCustomDataLoader.__len__`. -/
def lsunLen (ds : LSUNDataset) : Nat := ds.length

/-- The index-resolution loop of `LSUNCustomDataLoader.__getitem__`:
`target = 0; sub = 0; for ind in indices: if index < ind: break;
target += 1; sub = ind`. Returns `(target, sub)`. -/
def resolveLoop (i : Int) : List Nat → Nat → Nat → Nat × Nat
  | [], target, sub => (target, sub)
  | ind :: rest, target, sub =>
      if i < (ind : Int) then (target, sub)
      else resolveLoop i rest (target + 1) ind

/-- Resolution of a global index against a boundary table. -/
def resolve (indices : List Nat) (i : Int) : Nat × Nat :=
  resolveLoop i indices 0 0

/-- The (store index, local index) pair `__getitem__` computes:
`(target, index - sub)`. -/
def resolvePair (lens : List Nat) (i : Int) : Nat × Int :=
  let r := resolve (cumCounts 0 lens) i
  (r.1, i - r.2)

/-- `LSUNCustomDataLoader.__getitem__`: resolve the global index, get
`self.dbs[target]` (an IndexError if `target` runs past the list),
apply the optional target transform to `target`, and fetch
`db[index - sub]`, returning `(img, target)`. -/
def getItem (env : String → Env) (decode : Nat → Nat)
    (transform : Option (Nat → Nat)) (targetTransform : Option (Nat → Nat))
    (ds : LSUNDataset) (index : Int) : Option (Nat × Nat) :=
  let r := resolve ds.indices index
  match ds.dbs.get? r.1 with
  | none => none
  | some db =>
    let target2 := match targetTransform with
      | some t => t r.1
      | none => r.1
    match lsunClassGetItem env decode transform none db (index - (r.2 : Int)) with
    | none => none
    | some p => some (p.1, target2)


/-- A concrete 3-entry store environment used as a test fixture. -/
def env3 : String → Env :=
  fun _ => { entries := 3, cursorKeys := [10, 11, 12], get := fun k => some (k + 100) }

/-- The empty cache filesystem. -/
def fs0 : FS := ⟨[]⟩

/-- The dataset state `lsunInit env3 fs0 "r"` builds for one category. -/
def dsDemo : LSUNDataset :=
  { classes := ["bedroom_train"],
    dbs := [{ root := "r", length := 3, keys := [10, 11, 12] }],
    indices := [3],
    length := 3 }

/-- A store reporting 5 entries. -/
def envMismatch : String → Env :=
  fun _ => { entries := 5, cursorKeys := [0, 1, 2, 3, 4], get := fun _ => some 0 }

/-- A stale cache artifact for root "r" holding only 3 keys. -/
def fsStale : FS := ⟨[(cacheFile "r", [7, 8, 9])]⟩

/-- A cache filesystem already holding the enumeration of `env3`. -/
def fsDemo2 : FS := ⟨[(cacheFile "r", [10, 11, 12])]⟩

/-- The dataset state `lsunInit env3 fsDemo2 "r"` builds for two categories. -/
def dsDemo2 : LSUNDataset :=
  { classes := ["bedroom_train", "tower_val"],
    dbs := [{ root := "r", length := 3, keys := [10, 11, 12] },
            { root := "r", length := 3, keys := [10, 11, 12] }],
    indices := [3, 6],
    length := 6 }

theorem sum_take_succ_getD (lens : List Nat) :
    ∀ k : Nat, k < lens.length →
      (lens.take (k + 1)).sum = (lens.take k).sum + lens.getD k 0 := by
  induction lens with
  | nil => intro k hk; simp at hk
  | cons l ls ih =>
    intro k hk
    cases k with
    | zero => simp
    | succ k =>
      simp only [List.take, List.sum_cons, List.getD_cons_succ]
      rw [ih k (by simpa using hk)]
      omega

theorem take_sum_le (lens : List Nat) (k : Nat) :
    (lens.take k).sum ≤ lens.sum := by
  calc (lens.take k).sum ≤ (lens.take k).sum + (lens.drop k).sum := Nat.le_add_right _ _
  _ = lens.sum := lens.sum_take_add_sum_drop k

theorem take_sum_mono (lens : List Nat) {m n : Nat} (h : m ≤ n) :
    (lens.take m).sum ≤ (lens.take n).sum := by
  have : lens.take m = (lens.take n).take m := by
    rw [List.take_take, Nat.min_eq_left h]
  rw [this]
  exact take_sum_le _ _

theorem interval_unique (lens : List Nat) (i : Int) (k1 k2 : Nat)
    (h1 : k1 < lens.length) (h2 : k2 < lens.length)
    (ha : ((lens.take k1).sum : Int) ≤ i)
    (hb : i < ((lens.take k1).sum : Int) + (lens.getD k1 0 : Int))
    (hc : ((lens.take k2).sum : Int) ≤ i)
    (hd : i < ((lens.take k2).sum : Int) + (lens.getD k2 0 : Int)) :
    k1 = k2 := by
  rcases Nat.lt_trichotomy k1 k2 with h | h | h
  · exfalso
    have e1 := sum_take_succ_getD lens k1 h1
    have e2 := take_sum_mono lens (show k1 + 1 ≤ k2 from h)
    omega
  · exact h
  · exfalso
    have e1 := sum_take_succ_getD lens k2 h2
    have e2 := take_sum_mono lens (show k2 + 1 ≤ k1 from h)
    omega

theorem resolveLoop_spec (i : Int) :
    ∀ (lens : List Nat) (a t0 : Nat),
      (a : Int) ≤ i → i < (a : Int) + (lens.sum : Int) →
      ∃ k : Nat, k < lens.length ∧
        resolveLoop i (cumCounts a lens) t0 a =
          (t0 + k, a + (lens.take k).sum) ∧
        (a : Int) + ((lens.take k).sum : Int) ≤ i ∧
        i < (a : Int) + ((lens.take k).sum : Int) + (lens.getD k 0 : Int) := by
  intro lens
  induction lens with
  | nil =>
    intro a t0 h1 h2
    simp only [List.sum_nil, Nat.cast_zero, add_zero] at h2
    omega
  | cons l ls ih =>
    intro a t0 h1 h2
    by_cases hlt : i < ((a + l : Nat) : Int)
    · refine ⟨0, by simp, ?_, ?_, ?_⟩
      · simp only [cumCounts, resolveLoop]
        rw [if_pos hlt]
        simp
      · simpa using h1
      · push_cast at hlt ⊢
        simpa using hlt
    · have h1' : ((a + l : Nat) : Int) ≤ i := le_of_not_lt hlt
      have h2' : i < ((a + l : Nat) : Int) + (ls.sum : Int) := by
        simp only [List.sum_cons] at h2
        push_cast at h2 ⊢
        omega
      obtain ⟨k, hk, hres, hlo, hhi⟩ := ih (a + l) (t0 + 1) h1' h2'
      refine ⟨k + 1, by simpa using Nat.succ_lt_succ hk, ?_, ?_, ?_⟩
      · show resolveLoop i (cumCounts a (l :: ls)) t0 a = _
        simp only [cumCounts, resolveLoop]
        rw [if_neg hlt, hres]
        simp only [Prod.mk.injEq, List.take_succ_cons, List.sum_cons]
        constructor <;> omega
      · simp only [List.take_succ_cons, List.sum_cons]
        push_cast at hlo ⊢
        omega
      · simp only [List.take_succ_cons, List.sum_cons, List.getD_cons_succ]
        push_cast at hhi ⊢
        omega

theorem buildIndex_foldl (lens : List Nat) :
    ∀ (pre : List Nat) (c : Nat),
      lens.foldl (fun acc l => (acc.1 ++ [acc.2 + l], acc.2 + l)) (pre, c) =
        (pre ++ cumCounts c lens, c + lens.sum) := by
  induction lens with
  | nil => intro pre c; simp [cumCounts]
  | cons l ls ih =>
    intro pre c
    simp only [List.foldl_cons, ih, cumCounts, List.sum_cons, Prod.mk.injEq]
    constructor
    · simp
    · omega

theorem buildIndex_eq (lens : List Nat) :
    buildIndex lens = (cumCounts 0 lens, lens.sum) := by
  unfold buildIndex
  rw [buildIndex_foldl]
  simp

theorem cumCounts_length (lens : List Nat) :
    ∀ a : Nat, (cumCounts a lens).length = lens.length := by
  induction lens with
  | nil => intro a; rfl
  | cons l ls ih => intro a; simp [cumCounts, ih]

theorem cumCounts_getD (lens : List Nat) :
    ∀ (a k : Nat), k < lens.length →
      (cumCounts a lens).getD k 0 = a + (lens.take (k + 1)).sum := by
  induction lens with
  | nil => intro a k hk; simp at hk
  | cons l ls ih =>
    intro a k hk
    cases k with
    | zero => simp [cumCounts]
    | succ k =>
      simp only [cumCounts, List.getD_cons_succ, List.take_succ_cons, List.sum_cons]
      rw [ih (a + l) k (by simpa using hk)]
      omega

theorem cumCounts_ne_nil (lens : List Nat) (a : Nat) (h : lens ≠ []) :
    cumCounts a lens ≠ [] := by
  cases lens with
  | nil => exact absurd rfl h
  | cons l ls => simp [cumCounts]

theorem cumCounts_getLastD (lens : List Nat) :
    ∀ (a d : Nat), lens ≠ [] → (cumCounts a lens).getLastD d = a + lens.sum := by
  induction lens with
  | nil => intro a d h; exact absurd rfl h
  | cons l ls ih =>
    intro a d h
    simp only [cumCounts]
    rw [List.getLastD_cons]
    cases ls with
    | nil => simp [cumCounts]
    | cons x xs =>
      rw [ih (a + l) (a + l) (by simp)]
      simp only [List.sum_cons]
      omega

theorem resolveLoop_ge_fst (i : Int) :
    ∀ (lens : List Nat) (a t0 s0 : Nat),
      (a : Int) + (lens.sum : Int) ≤ i →
      (resolveLoop i (cumCounts a lens) t0 s0).1 = t0 + lens.length := by
  intro lens
  induction lens with
  | nil => intro a t0 s0 h; simp [cumCounts, resolveLoop]
  | cons l ls ih =>
    intro a t0 s0 h
    rw [List.sum_cons, Nat.cast_add] at h
    have hge : ¬ i < ((a + l : Nat) : Int) := by
      rw [Nat.cast_add]
      omega
    simp only [cumCounts, resolveLoop]
    rw [if_neg hge]
    rw [ih (a + l) (t0 + 1) (a + l) (by rw [Nat.cast_add]; omega)]
    simp only [List.length_cons]
    omega

theorem pyIndex_neg_one {α : Type} (xs : List α) :
    pyIndex xs (-1) = xs.getLast? := by
  unfold pyIndex
  cases xs with
  | nil => simp
  | cons x l =>
    rw [if_neg (by omega)]
    rw [if_pos (show (0 : Int) ≤ -1 + ((x :: l).length : Nat) by
      simp only [List.length_cons]
      omega)]
    have h1 : ((-1 : Int) + ((x :: l).length : Nat)).toNat = (x :: l).length - 1 := by
      simp only [List.length_cons]
      omega
    rw [h1, List.get?_eq_getElem?, List.getLast?_eq_getElem?]

theorem lsunClassInit_root (env : String → Env) (fs : FS) (root : String) :
    (lsunClassInit env fs root).1.root = root := by
  simp only [lsunClassInit]
  cases FS.lookup fs (cacheFile root) <;> rfl

theorem lsunClassInit_length (env : String → Env) (fs : FS) (root : String) :
    (lsunClassInit env fs root).1.length = (env root).entries := by
  simp only [lsunClassInit]
  cases FS.lookup fs (cacheFile root) <;> rfl

theorem openDbs_spec (env : String → Env) (root : String) :
    ∀ (cs : List String) (fs : FS),
      (openDbs env root cs fs).1.length = cs.length ∧
      ∀ db ∈ (openDbs env root cs fs).1,
        db.root = root ∧ db.length = (env root).entries := by
  intro cs
  induction cs with
  | nil => intro fs; simp [openDbs]
  | cons c cs ih =>
    intro fs
    simp only [openDbs, List.length_cons, List.mem_cons]
    refine ⟨by simp [(ih _).1], ?_⟩
    rintro db (rfl | hdb)
    · exact ⟨lsunClassInit_root env fs root, lsunClassInit_length env fs root⟩
    · exact (ih _).2 db hdb

theorem FS.lookup_write (fs : FS) (name : String) (keys : List Nat) :
    (fs.write name keys).lookup name = some keys := by
  unfold FS.write FS.lookup
  simp [List.find?]

theorem lsunClassInit_cache (env : String → Env) (fs : FS) (root : String) :
    ((lsunClassInit env fs root).2.1.lookup (cacheFile root)) =
      some (lsunClassInit env fs root).1.keys := by
  simp only [lsunClassInit]
  cases h : FS.lookup fs (cacheFile root) with
  | some ks => simp only [h]
  | none => simp only [h, FS.lookup_write]

theorem resolvePair_spec (lens : List Nat) (i : Int)
    (h0 : 0 ≤ i) (h1 : i < (lens.sum : Int)) :
    ∃ k : Nat, k < lens.length ∧
      resolvePair lens i = (k, i - ((lens.take k).sum : Int)) ∧
      ((lens.take k).sum : Int) ≤ i ∧
      i < ((lens.take k).sum : Int) + (lens.getD k 0 : Int) := by
  obtain ⟨k, hk, hres, hlo, hhi⟩ :=
    resolveLoop_spec i lens 0 0 (by simpa using h0) (by simpa using h1)
  refine ⟨k, hk, ?_, by simpa using hlo, by simpa using hhi⟩
  simp only [resolvePair, resolve]
  rw [hres]
  simp

/-- C1: for every global index in range, the resolution scan returns a
store index below the store count and a local index equal to the global
index minus the previous cumulative boundary, lying in the local range;
the mapping is injective and surjective onto the disjoint union of the
local ranges. -/
theorem C1_resolve_bijection (lens : List Nat) :
    (∀ i : Nat, i < lens.sum →
        (resolvePair lens i).1 < lens.length ∧
        0 ≤ (resolvePair lens i).2 ∧
        (resolvePair lens i).2 < (lens.getD (resolvePair lens i).1 0 : Int) ∧
        (resolvePair lens i).2 =
          (i : Int) - ((lens.take (resolvePair lens i).1).sum : Int)) ∧
    (∀ i j : Nat, i < lens.sum → j < lens.sum →
        resolvePair lens i = resolvePair lens j → i = j) ∧
    (∀ t loc : Nat, t < lens.length → loc < lens.getD t 0 →
        ∃ i : Nat, i < lens.sum ∧ resolvePair lens i = (t, (loc : Int))) := by
  refine ⟨?_, ?_, ?_⟩
  · intro i hi
    obtain ⟨k, hk, hpair, hlo, hhi⟩ :=
      resolvePair_spec lens i (Int.ofNat_nonneg i) (by exact_mod_cast hi)
    rw [hpair]
    refine ⟨hk, ?_, ?_, rfl⟩
    · show (0 : Int) ≤ (i : Int) - ((lens.take k).sum : Int)
      omega
    · show (i : Int) - ((lens.take k).sum : Int) < (lens.getD k 0 : Int)
      omega
  · intro i j hi hj heq
    obtain ⟨k1, hk1, hp1, hlo1, hhi1⟩ :=
      resolvePair_spec lens i (Int.ofNat_nonneg i) (by exact_mod_cast hi)
    obtain ⟨k2, hk2, hp2, hlo2, hhi2⟩ :=
      resolvePair_spec lens j (Int.ofNat_nonneg j) (by exact_mod_cast hj)
    rw [hp1, hp2] at heq
    simp only [Prod.mk.injEq] at heq
    obtain ⟨hfst, hsnd⟩ := heq
    subst hfst
    omega
  · intro t loc ht hloc
    have hstep := sum_take_succ_getD lens t ht
    have hle := take_sum_le lens (t + 1)
    refine ⟨(lens.take t).sum + loc, by omega, ?_⟩
    obtain ⟨k, hk, hpair, hlo, hhi⟩ :=
      resolvePair_spec lens ((lens.take t).sum + loc : Nat)
        (Int.ofNat_nonneg _) (by exact_mod_cast (by omega : (lens.take t).sum + loc < lens.sum))
    have hkt : k = t := by
      refine interval_unique lens ((lens.take t).sum + loc : Nat) k t hk ht hlo hhi ?_ ?_
      · push_cast
        omega
      · push_cast
        omega
    subst hkt
    rw [hpair]
    simp only [Prod.mk.injEq, true_and]
    push_cast
    omega

/-- C1 witness: the dataset of the spec scenario, store counts `[3, 5]`:
global index 4 resolves in range with the boundary arithmetic, and
`(1, 2)` is hit by some global index. -/
theorem C1_witness :
    ((resolvePair [3, 5] (4 : Nat)).1 < [3, 5].length ∧
      0 ≤ (resolvePair [3, 5] (4 : Nat)).2 ∧
      (resolvePair [3, 5] (4 : Nat)).2 <
        (([3, 5].getD (resolvePair [3, 5] (4 : Nat)).1 0 : Nat) : Int) ∧
      (resolvePair [3, 5] (4 : Nat)).2 =
        ((4 : Nat) : Int) - ((([3, 5].take (resolvePair [3, 5] (4 : Nat)).1).sum : Nat) : Int)) ∧
    (∃ i : Nat, i < [3, 5].sum ∧ resolvePair [3, 5] (i : Nat) = (1, ((2 : Nat) : Int))) :=
  ⟨(C1_resolve_bijection [3, 5]).1 4 (by decide),
   (C1_resolve_bijection [3, 5]).2.2 1 2 (by decide) (by decide)⟩

theorem lsunInit_fields (env : String → Env) (fs : FS) (root : String)
    (spec : Sum String (List String)) (ds : LSUNDataset) (fs2 : FS)
    (h : lsunInit env fs root spec = Except.ok (ds, fs2)) :
    ds.dbs = (openDbs env root ds.classes fs).1 ∧
    ds.indices = cumCounts 0 (ds.dbs.map (fun db => db.length)) ∧
    ds.length = (ds.dbs.map (fun db => db.length)).sum ∧
    verifyClasses spec = Except.ok ds.classes ∧
    fs2 = (openDbs env root ds.classes fs).2 := by
  unfold lsunInit at h
  cases hv : verifyClasses spec with
  | error e =>
    rw [hv] at h
    simp at h
  | ok cs =>
    rw [hv] at h
    simp only [Except.ok.injEq, Prod.mk.injEq] at h
    obtain ⟨h1, h2⟩ := h
    subst h2
    subst h1
    refine ⟨rfl, ?_, ?_, rfl, rfl⟩
    · show (buildIndex _).1 = _
      rw [buildIndex_eq]
    · show (buildIndex _).2 = _
      rw [buildIndex_eq]

/-- Resolution of a negative global index stops at the first boundary
(every boundary is a nonnegative count), yielding store 0 and `sub = 0`. -/
theorem resolve_neg (indices : List Nat) (i : Int) (h : i < 0) :
    resolve indices i = (0, 0) := by
  unfold resolve
  cases indices with
  | nil => rfl
  | cons ind rest =>
    show resolveLoop i (ind :: rest) 0 0 = (0, 0)
    unfold resolveLoop
    rw [if_pos (by omega)]

/-- C2 counterexample: a one-store dataset built by `lsunInit` over a
3-entry store; `__getitem__(-1)` does not fail: it returns the image
decoded from the value of the last key of store 0, with target 0. -/
theorem C2_counterexample :
    (lsunInit env3 fs0 "r" (Sum.inr ["bedroom_train"])).toOption.bind
      (fun p => getItem env3 id none none p.1 (-1)) = some (112, 0) := by
  rfl

/-- C2 amended: a global index at or beyond the total length fails (the
store-handle list access raises), but a negative index is not rejected:
`-1` resolves to store 0 and Python list indexing fetches the last
cached key of store 0. -/
theorem C2_out_of_range :
    (∀ (env : String → Env) (decode : Nat → Nat) (tr tt : Option (Nat → Nat))
        (ds : LSUNDataset),
        ds.indices = cumCounts 0 (ds.dbs.map (fun db => db.length)) →
        ∀ i : Int, ((ds.dbs.map (fun db => db.length)).sum : Int) ≤ i →
        getItem env decode tr tt ds i = none) ∧
    (∀ (env : String → Env) (decode : Nat → Nat) (tr : Option (Nat → Nat))
        (ds : LSUNDataset) (db : LSUNClass) (k v : Nat),
        ds.dbs.get? 0 = some db →
        db.keys.getLast? = some k →
        (env db.root).get k = some v →
        ∃ img : Nat, getItem env decode tr none ds (-1) = some (img, 0)) := by
  constructor
  · intro env decode tr tt ds hind i hi
    have h1 : (resolve ds.indices i).1 = ds.dbs.length := by
      unfold resolve
      rw [hind, resolveLoop_ge_fst i _ 0 0 0 (by simpa using hi)]
      simp
    simp only [getItem, h1]
    rw [List.get?_eq_none.mpr (le_refl _)]
  · intro env decode tr ds db k v hdb hk hv
    have hres : resolve ds.indices (-1) = (0, 0) :=
      resolve_neg ds.indices (-1) (by norm_num)
    simp only [getItem, hres, Nat.cast_zero, sub_zero, hdb]
    simp only [lsunClassGetItem, pyIndex_neg_one, hk, hv]
    cases tr with
    | none => exact ⟨decode v, rfl⟩
    | some t => exact ⟨t (decode v), rfl⟩

/-- C2 witness for the amended theorem: on the concrete one-store
dataset, index 3 = total length fails, and index -1 succeeds with
target 0. -/
theorem C2_witness :
    getItem env3 id none none dsDemo 3 = none ∧
    (∃ img : Nat, getItem env3 id none none dsDemo (-1) = some (img, 0)) :=
  ⟨C2_out_of_range.1 env3 id none none dsDemo (by rfl) 3 (by decide),
   C2_out_of_range.2 env3 id none dsDemo
     { root := "r", length := 3, keys := [10, 11, 12] } 12 112
     (by rfl) (by rfl) (by rfl)⟩

/-- C3 counterexample: with a stale 3-key cache artifact present while
the store reports 5 entries, `LSUNClass.__init__` completes with no
error of any kind: the handle holds count 5 next to a 3-element key
list. No comparison between the two is ever made. -/
theorem C3_counterexample :
    (lsunClassInit envMismatch fsStale "r").1.length = 5 ∧
    (lsunClassInit envMismatch fsStale "r").1.keys.length = 3 ∧
    (lsunClassInit envMismatch fsStale "r").1.length ≠
      (lsunClassInit envMismatch fsStale "r").1.keys.length := by
  refine ⟨rfl, rfl, ?_⟩
  decide

/-- C3 amended: the entry count is captured once at open time, and the
key list is taken verbatim from the cache artifact when one exists
(from a fresh scan otherwise); `__init__` never compares the two, so a
mismatched cache is accepted silently. -/
theorem C3_no_integrity_check (env : String → Env) (fs : FS) (root : String) :
    (lsunClassInit env fs root).1.length = (env root).entries ∧
    (∀ ks, fs.lookup (cacheFile root) = some ks →
        (lsunClassInit env fs root).1.keys = ks) ∧
    (fs.lookup (cacheFile root) = none →
        (lsunClassInit env fs root).1.keys = (env root).cursorKeys) := by
  refine ⟨lsunClassInit_length env fs root, ?_, ?_⟩
  · intro ks hks
    simp only [lsunClassInit, hks]
  · intro hnone
    simp only [lsunClassInit, hnone]

/-- C3 witness: the amended theorem applied to the stale-cache store. -/
theorem C3_witness :
    (lsunClassInit envMismatch fsStale "r").1.length = (envMismatch "r").entries ∧
    (lsunClassInit envMismatch fsStale "r").1.keys = [7, 8, 9] :=
  ⟨(C3_no_integrity_check envMismatch fsStale "r").1,
   (C3_no_integrity_check envMismatch fsStale "r").2.1 [7, 8, 9] (by rfl)⟩

/-- C4: for a dataset built by `__init__`, the boundary table satisfies
`indices[k] = indices[k-1] + len(dbs[k])` (with `indices[0] = len(dbs[0])`),
its last entry is the sum of all store lengths (when there is at least
one store), and `__len__` returns that sum. -/
theorem C4_boundary_table (env : String → Env) (fs : FS) (root : String)
    (spec : Sum String (List String)) (ds : LSUNDataset) (fs2 : FS)
    (h : lsunInit env fs root spec = Except.ok (ds, fs2)) :
    (∀ k, k < ds.indices.length →
        ds.indices.getD k 0 =
          (if k = 0 then 0 else ds.indices.getD (k - 1) 0) +
            (ds.dbs.map (fun db => db.length)).getD k 0) ∧
    (ds.dbs ≠ [] →
        ds.indices.getLastD 0 = (ds.dbs.map (fun db => db.length)).sum) ∧
    lsunLen ds = (ds.dbs.map (fun db => db.length)).sum := by
  obtain ⟨hdbs, hind, hlen, hcls, hfs⟩ := lsunInit_fields env fs root spec ds fs2 h
  refine ⟨?_, ?_, hlen⟩
  · intro k hk
    rw [hind] at hk ⊢
    rw [cumCounts_length] at hk
    cases k with
    | zero =>
      rw [cumCounts_getD _ 0 0 hk]
      have := sum_take_succ_getD (ds.dbs.map (fun db => db.length)) 0 hk
      simp at this ⊢
      omega
    | succ k =>
      rw [if_neg (Nat.succ_ne_zero k)]
      simp only [Nat.add_sub_cancel]
      rw [cumCounts_getD _ 0 (k + 1) hk, cumCounts_getD _ 0 k (by omega)]
      have := sum_take_succ_getD (ds.dbs.map (fun db => db.length)) (k + 1) hk
      omega
  · intro hne
    rw [hind]
    rw [cumCounts_getLastD _ 0 0 (by simpa using hne)]
    omega

/-- C4 witness: the two-store dataset built concretely by `lsunInit`. -/
theorem C4_witness :
    dsDemo2.indices.getD 1 0 =
      dsDemo2.indices.getD 0 0 +
        (dsDemo2.dbs.map (fun db => db.length)).getD 1 0 ∧
    dsDemo2.indices.getLastD 0 = (dsDemo2.dbs.map (fun db => db.length)).sum ∧
    lsunLen dsDemo2 = (dsDemo2.dbs.map (fun db => db.length)).sum := by
  have h := C4_boundary_table env3 fsDemo2 "r" (Sum.inr ["bedroom_train", "tower_val"])
    dsDemo2 fsDemo2 (by rfl)
  refine ⟨?_, h.2.1 (by decide), h.2.2⟩
  have h1 := h.1 1 (by decide)
  simpa using h1

/-- C5: the split names "train" and "val" expand to every category of
the fixed vocabulary suffixed with the split, in vocabulary order (one
entry per category); "test" expands to the single literal list. -/
theorem C5_split_expansion :
    verifyClasses (Sum.inl "train") =
        Except.ok (categories.map (fun c => c ++ "_train")) ∧
    verifyClasses (Sum.inl "val") =
        Except.ok (categories.map (fun c => c ++ "_val")) ∧
    (categories.map (fun c => c ++ "_train")).length = categories.length ∧
    (categories.map (fun c => c ++ "_val")).length = categories.length ∧
    verifyClasses (Sum.inl "test") = Except.ok ["test"] := by
  refine ⟨by rfl, by rfl, by simp, by simp, by rfl⟩

theorem verifyElem_ok (c : String) (h1 : pyCategory c ∈ categories)
    (h2 : pyDsetOpt c ∈ dset_opts) : verifyElem c = Except.ok () := by
  unfold verifyElem
  rw [if_pos h1, if_pos h2]

theorem verifyList_ok (cs : List String)
    (h : ∀ c ∈ cs, pyCategory c ∈ categories ∧ pyDsetOpt c ∈ dset_opts) :
    verifyList cs = Except.ok () := by
  induction cs with
  | nil => rfl
  | cons c cs ih =>
    simp only [verifyList]
    rw [verifyElem_ok c (h c (by simp)).1 (h c (by simp)).2]
    exact ih (fun a ha => h a (by simp [ha]))

theorem verifyList_error (pre : List String) (c : String) (post : List String)
    (e : VerifyError)
    (hpre : ∀ a ∈ pre, pyCategory a ∈ categories ∧ pyDsetOpt a ∈ dset_opts)
    (hc : verifyElem c = Except.error e) :
    verifyList (pre ++ c :: post) = Except.error e := by
  induction pre with
  | nil => simp only [List.nil_append, verifyList, hc]
  | cons a pre ih =>
    simp only [List.cons_append, verifyList]
    rw [verifyElem_ok a (hpre a (by simp)).1 (hpre a (by simp)).2]
    exact ih (fun x hx => hpre x (by simp [hx]))

/-- C6: each element splits at its last underscore into
(category, postfix): an unknown category fails with the error naming it
and listing the vocabulary, an unknown postfix fails with the error
naming it and listing the splits; `["bedroom_train", "nope_val"]` fails
naming "nope"; a fully valid explicit list is returned as given (order,
length and duplicates preserved), and an element failure after a valid
run of elements surfaces as the resolution result. -/
theorem C6_explicit_list :
    verifyClasses (Sum.inr ["bedroom_train", "nope_val"]) =
        Except.error (VerifyError.unknownCategory "nope" categories) ∧
    (∀ cs : List String,
        (∀ c ∈ cs, pyCategory c ∈ categories ∧ pyDsetOpt c ∈ dset_opts) →
        verifyClasses (Sum.inr cs) = Except.ok cs) ∧
    (∀ c : String, pyCategory c ∉ categories →
        verifyElem c =
          Except.error (VerifyError.unknownCategory (pyCategory c) categories)) ∧
    (∀ c : String, pyCategory c ∈ categories → pyDsetOpt c ∉ dset_opts →
        verifyElem c =
          Except.error (VerifyError.unknownSplit (pyDsetOpt c) dset_opts)) ∧
    (∀ (pre : List String) (c : String) (post : List String) (e : VerifyError),
        (∀ a ∈ pre, pyCategory a ∈ categories ∧ pyDsetOpt a ∈ dset_opts) →
        verifyElem c = Except.error e →
        verifyClasses (Sum.inr (pre ++ c :: post)) = Except.error e) := by
  refine ⟨by rfl, ?_, ?_, ?_, ?_⟩
  · intro cs h
    simp only [verifyClasses, verifyList_ok cs h, Except.map]
  · intro c h
    unfold verifyElem
    rw [if_neg h]
  · intro c h1 h2
    unfold verifyElem
    rw [if_pos h1, if_neg h2]
  · intro pre c post e hpre hc
    simp only [verifyClasses, verifyList_error pre c post e hpre hc, Except.map]

/-- C6 witness: a valid list with a duplicate is returned unchanged; the
element errors at concrete inputs; a one-element valid run followed by
"nope_val" surfaces the UnknownCategory error naming "nope". -/
theorem C6_witness :
    verifyClasses
        (Sum.inr ["bedroom_train", "church_outdoor_val", "bedroom_train"]) =
      Except.ok ["bedroom_train", "church_outdoor_val", "bedroom_train"] ∧
    verifyElem "nope_val" =
      Except.error (VerifyError.unknownCategory "nope" categories) ∧
    verifyElem "bedroom_halt" =
      Except.error (VerifyError.unknownSplit "halt" dset_opts) ∧
    verifyClasses (Sum.inr (["bedroom_train"] ++ "nope_val" :: [])) =
      Except.error (VerifyError.unknownCategory "nope" categories) :=
  ⟨C6_explicit_list.2.1 ["bedroom_train", "church_outdoor_val", "bedroom_train"]
      (by decide),
   C6_explicit_list.2.2.1 "nope_val" (by decide),
   C6_explicit_list.2.2.2.1 "bedroom_halt" (by decide) (by decide),
   C6_explicit_list.2.2.2.2 ["bedroom_train"] "nope_val" []
      (VerifyError.unknownCategory "nope" categories) (by decide) (by rfl)⟩

/-- C7: whenever `__getitem__` returns, the returned target is the
resolved store index, passed through the target transform when one is
supplied and raw otherwise; the store list built by `__init__` has one
handle per resolved category (so the store index is the category's
position in the resolved order). -/
theorem C7_label_is_store_index :
    (∀ (env : String → Env) (decode : Nat → Nat) (tr : Option (Nat → Nat))
        (tt : Nat → Nat) (ds : LSUNDataset) (i : Int) (img lab : Nat),
        getItem env decode tr (some tt) ds i = some (img, lab) →
        lab = tt (resolve ds.indices i).1) ∧
    (∀ (env : String → Env) (decode : Nat → Nat) (tr : Option (Nat → Nat))
        (ds : LSUNDataset) (i : Int) (img lab : Nat),
        getItem env decode tr none ds i = some (img, lab) →
        lab = (resolve ds.indices i).1) ∧
    (∀ (env : String → Env) (fs : FS) (root : String)
        (spec : Sum String (List String)) (ds : LSUNDataset) (fs2 : FS),
        lsunInit env fs root spec = Except.ok (ds, fs2) →
        ds.dbs.length = ds.classes.length) := by
  refine ⟨?_, ?_, ?_⟩
  · intro env decode tr tt ds i img lab h
    cases hdb : ds.dbs.get? (resolve ds.indices i).1 with
    | none =>
      simp only [getItem, hdb] at h
      exact Option.noConfusion h
    | some db =>
      simp only [getItem, hdb] at h
      cases hg : lsunClassGetItem env decode tr none db
          (i - ((resolve ds.indices i).2 : Int)) with
      | none =>
        simp only [hg] at h
        exact Option.noConfusion h
      | some p =>
        simp only [hg, Option.some.injEq, Prod.mk.injEq] at h
        exact h.2.symm
  · intro env decode tr ds i img lab h
    cases hdb : ds.dbs.get? (resolve ds.indices i).1 with
    | none =>
      simp only [getItem, hdb] at h
      exact Option.noConfusion h
    | some db =>
      simp only [getItem, hdb] at h
      cases hg : lsunClassGetItem env decode tr none db
          (i - ((resolve ds.indices i).2 : Int)) with
      | none =>
        simp only [hg] at h
        exact Option.noConfusion h
      | some p =>
        simp only [hg, Option.some.injEq, Prod.mk.injEq] at h
        exact h.2.symm
  · intro env fs root spec ds fs2 h
    obtain ⟨hdbs, _, _, _, _⟩ := lsunInit_fields env fs root spec ds fs2 h
    rw [hdbs]
    exact (openDbs_spec env root ds.classes fs).1

/-- C7 witness: on the concrete one-store dataset, the returned label at
index 0 is the transformed store index 0, and the raw index without a
transform. -/
theorem C7_witness :
    (10 : Nat) = (fun n => n + 10) (resolve dsDemo.indices 0).1 ∧
    (0 : Nat) = (resolve dsDemo.indices 0).1 :=
  ⟨C7_label_is_store_index.1 env3 id none (fun n => n + 10) dsDemo 0 110 10 (by rfl),
   C7_label_is_store_index.2.1 env3 id none dsDemo 0 110 0 (by rfl)⟩

theorem lsunClassInit_hit (env : String → Env) (fs : FS) (root : String)
    (ks : List Nat) (h : fs.lookup (cacheFile root) = some ks) :
    (lsunClassInit env fs root).1.keys = ks ∧
    (lsunClassInit env fs root).2.2 = false := by
  simp [lsunClassInit, h]

/-- C8: on a cache miss the first `__init__` scans the store and writes
the artifact with exactly the enumerated keys; a second `__init__` on the
resulting filesystem returns the identical key list and performs no
store scan. -/
theorem C8_cache_idempotent (env : String → Env) (fs : FS) (root : String) :
    (fs.lookup (cacheFile root) = none →
        (lsunClassInit env fs root).2.2 = true ∧
        (lsunClassInit env fs root).1.keys = (env root).cursorKeys ∧
        (lsunClassInit env fs root).2.1.lookup (cacheFile root) =
          some (env root).cursorKeys) ∧
    (lsunClassInit env (lsunClassInit env fs root).2.1 root).1.keys =
        (lsunClassInit env fs root).1.keys ∧
    (lsunClassInit env (lsunClassInit env fs root).2.1 root).2.2 = false := by
  have hcache := lsunClassInit_cache env fs root
  refine ⟨?_, ?_, ?_⟩
  · intro hnone
    simp [lsunClassInit, hnone, FS.lookup_write]
  · exact (lsunClassInit_hit env _ root _ hcache).1
  · exact (lsunClassInit_hit env _ root _ hcache).2

/-- C8 witness: the empty filesystem misses, so the first open scans,
returns the cursor enumeration and writes it to the cache path. -/
theorem C8_witness :
    (lsunClassInit env3 fs0 "r").2.2 = true ∧
    (lsunClassInit env3 fs0 "r").1.keys = (env3 "r").cursorKeys ∧
    (lsunClassInit env3 fs0 "r").2.1.lookup (cacheFile "r") =
      some (env3 "r").cursorKeys :=
  (C8_cache_idempotent env3 fs0 "r").1 (by rfl)

theorem sum_map_length_const (E : Nat) :
    ∀ l : List LSUNClass, (∀ db ∈ l, db.length = E) →
      (l.map (fun db => db.length)).sum = l.length * E := by
  intro l
  induction l with
  | nil => intro _; simp
  | cons x xs ih =>
    intro h
    simp only [List.map_cons, List.sum_cons, List.length_cons]
    rw [h x (by simp), ih (fun db hdb => h db (by simp [hdb]))]
    ring

/-- C9: every store handle of a dataset is opened at the dataset's
single root, so all sub-stores report the same entry count and the
total length is the number of resolved categories times that count. -/
theorem C9_same_root (env : String → Env) (fs : FS) (root : String)
    (spec : Sum String (List String)) (ds : LSUNDataset) (fs2 : FS)
    (h : lsunInit env fs root spec = Except.ok (ds, fs2)) :
    (∀ db ∈ ds.dbs, db.root = root ∧ lsunClassLen db = (env root).entries) ∧
    lsunLen ds = ds.classes.length * (env root).entries := by
  obtain ⟨hdbs, hind, hlen, hcls, hfs⟩ := lsunInit_fields env fs root spec ds fs2 h
  have hspec := openDbs_spec env root ds.classes fs
  constructor
  · intro db hdb
    rw [hdbs] at hdb
    exact hspec.2 db hdb
  · have hall : ∀ db ∈ ds.dbs, db.length = (env root).entries := by
      intro db hdb
      rw [hdbs] at hdb
      exact (hspec.2 db hdb).2
    unfold lsunLen
    rw [hlen, sum_map_length_const _ ds.dbs hall, hdbs, hspec.1]

/-- C9 witness: the concrete two-category dataset over the 3-entry store
has total length 2 × 3. -/
theorem C9_witness :
    lsunLen dsDemo2 = dsDemo2.classes.length * (env3 "r").entries :=
  (C9_same_root env3 fsDemo2 "r" (Sum.inr ["bedroom_train", "tower_val"])
    dsDemo2 fsDemo2 (by rfl)).2

/-- C10: a string spec outside {train, val, test} is not rejected as an
invalid split: the string is listified into its single characters and
those are validated as category strings; "bedroom_train" fails with an
UnknownCategory error on the category part of its first character,
naming "" and not the full spec string. -/
theorem C10_string_iterable :
    (∀ s : String, s ∉ dset_opts →
        verifyClasses (Sum.inl s) =
          (verifyList (s.toList.map (fun ch => String.mk [ch]))).map
            (fun _ => s.toList.map (fun ch => String.mk [ch]))) ∧
    verifyClasses (Sum.inl "bedroom_train") =
        Except.error (VerifyError.unknownCategory "" categories) ∧
    verifyElem "b" = Except.error (VerifyError.unknownCategory "" categories) ∧
    "" ≠ "bedroom_train" := by
  refine ⟨?_, by rfl, by rfl, by decide⟩
  intro s hs
  simp only [verifyClasses]
  rw [if_neg hs]

/-- C10 witness: the character-listification equation applied to the
bare string "bedroom_train". -/
theorem C10_witness :
    verifyClasses (Sum.inl "bedroom_train") =
      (verifyList ("bedroom_train".toList.map (fun ch => String.mk [ch]))).map
        (fun _ => "bedroom_train".toList.map (fun ch => String.mk [ch])) :=
  C10_string_iterable.1 "bedroom_train" (by decide)

end DataLoader
